import Mathlib

/-!
Verification of the incremental extraction controller of the webscraper
repository, as a shallow embedding in Lean 4.

The embedding follows the Go sources:
  * internal/scraper/scraper.go  — StockData, GetStockData (pagination loop,
    overlap merge), calculatePriceChanges, SaveToCSV, loadExistingData,
    findOverlap, processSingleTicker;
  * internal/utils/performance.go — StepTiming, StepAggregate,
    PerformanceTracker (StartStep / EndStep / updateAggregates) and its
    mutex discipline;
  * the ticker-list reader ReadTickersFromCSV.

Modelling conventions:
  * textual fields stay `String`; numeric close prices are decoded by an
    abstract `parse : String → Option ℚ` standing for strconv.ParseFloat
    (`none` = parse error), and float64 arithmetic is modelled by exact ℚ;
  * the CSV file is modelled as its table of cells `List (List String)`
    (header row and data rows); the CSV writer is a fixed deterministic
    injective serialisation of that table, so table equality is
    byte-for-byte file equality;
  * the browser session is abstracted by two oracles: `pages p` is the
    outcome of evaluating the table-extraction script while the session
    shows page `p`, and `nav p` tells whether the doAjax navigation from
    page `p` to `p+1` succeeds;
  * fallible Go functions return `Except String` / `Option`; a Go panic is
    modelled as `none`;
  * durations (time.Duration, int64 nanoseconds) are modelled as ℕ.
-/

/-- Record of one scraped row (scraper.go, type StockData).  `change` and
`changePerc` are the derived float64 fields (Go zero value 0). -/
structure StockData where
  date : String
  openPrice : String
  highPrice : String
  lowPrice : String
  closePrice : String
  volume : String
  totalShares : String
  numTrades : String
  change : ℚ
  changePerc : ℚ
deriving DecidableEq, Repr

/-- existingData[0].Date, the most recent date of a (nonempty) history;
scraper.go uses it only under a nonemptiness guard. -/
def headDate : List StockData → String
  | [] => ""
  | r :: _ => r.date

/-- findOverlap (scraper.go:548-561): true iff both lists are nonempty and
the most recent date of the existing data occurs among the new rows.
`List.any` on `[]` is false, matching the explicit length guards. -/
def findOverlap (existingData newData : List StockData) : Bool :=
  match existingData with
  | [] => false
  | h :: _ => newData.any (fun r => r.date == h.date)

/-- The truncation loop of GetStockData (scraper.go:184-189): scan the page
rows in order and cut at the first row whose date equals `d`
(pageData = pageData[:i]). -/
def truncateAtDate (d : String) : List StockData → List StockData
  | [] => []
  | r :: rs => if r.date == d then [] else r :: truncateAtDate d rs

/-- One iteration body of calculatePriceChanges (scraper.go:483-501) for
index i: `cur` is data[i], `next` is data[i+1].  A parse failure of either
close leaves the row untouched (`continue`); otherwise Change is assigned,
and ChangePerc only when the previous close is nonzero. -/
def calcChange (parse : String → Option ℚ) (cur next : StockData) : StockData :=
  match parse cur.closePrice with
  | none => cur
  | some currentClose =>
    match parse next.closePrice with
    | none => cur
    | some previousClose =>
      let ch := currentClose - previousClose
      { cur with
        change := ch
        changePerc := if previousClose ≠ 0 then ch / previousClose * 100 else cur.changePerc }

/-- The index loop of calculatePriceChanges: each index i < len-1 is
rewritten from data[i] and data[i+1]; the last row is left as is.  The Go
loop mutates in place, but it only writes the derived fields of index i and
only reads string fields, so this functional form is equivalent. -/
def calcAux (parse : String → Option ℚ) : List StockData → List StockData
  | [] => []
  | [r] => [r]
  | cur :: next :: rest => calcChange parse cur next :: calcAux parse (next :: rest)

/-- calculatePriceChanges (scraper.go:477-504), including the
`len(data) < 2` early return. -/
def calculatePriceChanges (parse : String → Option ℚ) (data : List StockData) : List StockData :=
  if data.length < 2 then data else calcAux parse data

/-- The overlap-merge step of GetStockData for one fetched page
(scraper.go:179-193 together with the final append at 232-235): truncate
the fresh rows at the existing head date when an overlap is found, then
prepend them to the existing history. -/
def mergeFresh (existingData fresh : List StockData) : List StockData :=
  let fresh' :=
    if findOverlap existingData fresh then truncateAtDate (headDate existingData) fresh
    else fresh
  fresh' ++ existingData

/-- Outcome of evaluating the table-extraction script on one page:
either a decode/evaluate failure or the decoded rows. -/
inductive PageResult where
  | failure : PageResult
  | ok : List StockData → PageResult

/-- The pagination loop of GetStockData (scraper.go:136-230).  `pages p` is
the extraction outcome while the session shows page `p`; `nav p` is whether
the doAjax navigation from page `p` to `p+1` succeeds.  The fuel argument
realises the `currentPage <= maxPages` guard (the loop is entered with
fuel = maxPages at currentPage = 1, so fuel reaches 0 only if maxPages is 0).
Returned with the rows is the number of pages whose extraction ran.
Branches, in source order: extraction error → propagated error (line 162);
empty page → break (167); overlap found → truncate, append, break (179-198);
short page (< pageSize, the constant 25 of line 201) → break; page bound
reached → break (206); failed navigation to the next page → break,
keeping the rows fetched so far (223-226); otherwise continue. -/
def getLoop (pages : Nat → PageResult) (nav : Nat → Bool) (existingData : List StockData)
    (maxPages pageSize : Nat) : Nat → Nat → List StockData → Except String (List StockData × Nat)
  | 0, _, acc => .ok (acc, 0)
  | fuel + 1, currentPage, acc =>
    match pages currentPage with
    | .failure => .error ("failed to extract data from page " ++ toString currentPage)
    | .ok pageData =>
      if pageData = [] then .ok (acc, 1)
      else if findOverlap existingData pageData then
        .ok (acc ++ truncateAtDate (headDate existingData) pageData, 1)
      else if pageData.length < pageSize then .ok (acc ++ pageData, 1)
      else if maxPages ≤ currentPage then .ok (acc ++ pageData, 1)
      else if nav currentPage then
        match getLoop pages nav existingData maxPages pageSize fuel (currentPage + 1) (acc ++ pageData) with
        | .error e => .error e
        | .ok (res, n) => .ok (res, n + 1)
      else .ok (acc ++ pageData, 1)

/-- The pagination phase of GetStockData: the loop started at page 1 with
an empty accumulator and fuel maxPages. -/
def GetStockDataRows (pages : Nat → PageResult) (nav : Nat → Bool) (existingData : List StockData)
    (maxPages pageSize : Nat) : Except String (List StockData × Nat) :=
  getLoop pages nav existingData maxPages pageSize maxPages 1 []

/-- GetStockData (scraper.go:50-241) after loading the existing history:
run the pagination loop, append the existing history to the accumulated
new rows, and annotate the result with calculatePriceChanges.  (Appending
is guarded by `len(existingData) > 0` in the source; appending `[]` is the
same.) -/
def GetStockData (parse : String → Option ℚ) (pages : Nat → PageResult) (nav : Nat → Bool)
    (existingData : List StockData) (maxPages pageSize : Nat) : Except String (List StockData) :=
  match GetStockDataRows pages nav existingData maxPages pageSize with
  | .error e => .error e
  | .ok (rows, _) => .ok (calculatePriceChanges parse (rows ++ existingData))

/-- The header row written by SaveToCSV (scraper.go:267). -/
def csvHeader : List String :=
  ["Date", "Open", "High", "Low", "Close", "Change", "Change%", "Volume", "T.Shares", "Trades"]

/-- One data row written by SaveToCSV (scraper.go:273-285).  `fmt3` and
`fmt2` stand for the deterministic formatters Sprintf "%.3f" and
Sprintf "%.2f%%". -/
def serializeRow (fmt3 fmt2 : ℚ → String) (r : StockData) : List String :=
  [r.date, r.openPrice, r.highPrice, r.lowPrice, r.closePrice,
   fmt3 r.change, fmt2 r.changePerc, r.volume, r.totalShares, r.numTrades]

/-- SaveToCSV (scraper.go:243-293): refuse an empty data set before the
file is touched; otherwise the produced file is the header row followed by
one serialised row per record. -/
def SaveToCSV (fmt3 fmt2 : ℚ → String) (data : List StockData) :
    Except String (List (List String)) :=
  if data = [] then .error "no data to save"
  else .ok (csvHeader :: data.map (serializeRow fmt3 fmt2))

/-- Rebuilding one StockData from a CSV record (scraper.go:531-541):
fields 0-4 and 7-9 are read, the Change and Change% columns (5, 6) are
skipped, so the derived fields take the Go zero value 0. -/
def loadRow (record : List String) : StockData :=
  { date := record.getD 0 ""
    openPrice := record.getD 1 ""
    highPrice := record.getD 2 ""
    lowPrice := record.getD 3 ""
    closePrice := record.getD 4 ""
    volume := record.getD 7 ""
    totalShares := record.getD 8 ""
    numTrades := record.getD 9 ""
    change := 0
    changePerc := 0 }

/-- loadExistingData (scraper.go:507-545) on the modelled file state:
`none` (file absent) and an unreadable header both yield an empty history
(the caller continues with a full scrape either way); otherwise the header
row is skipped and every remaining record is decoded by `loadRow`. -/
def loadExistingData (file : Option (List (List String))) : List StockData :=
  match file with
  | none => []
  | some [] => []
  | some (_ :: records) => records.map loadRow

/-- processSingleTicker (scraper.go:409-428) acting on the persisted file
of one ticker: load the existing history, fetch and annotate, and only on
full success overwrite the file with the serialised result.  The Bool
records whether the ticker was processed successfully. -/
def processSingleTicker (parse : String → Option ℚ) (fmt3 fmt2 : ℚ → String)
    (pages : Nat → PageResult) (nav : Nat → Bool) (maxPages pageSize : Nat)
    (file : Option (List (List String))) : Option (List (List String)) × Bool :=
  let existingData := loadExistingData file
  match GetStockData parse pages nav existingData maxPages pageSize with
  | .error _ => (file, false)
  | .ok rows =>
    match SaveToCSV fmt3 fmt2 rows with
    | .error _ => (file, false)
    | .ok content => (some content, true)

/-- First fields of a record list; `none` models the panic of `record[0]`
on a record with no fields (encoding/csv never delivers one). -/
def firstFields : List (List String) → Option (List String)
  | [] => some []
  | record :: rest =>
    match record.head?, firstFields rest with
    | some t, some l => some (t :: l)
    | _, _ => none

/-- ReadTickersFromCSV (utils, src/unnamed/part_003:9-28) after
csv.ReadAll: `records[1:]` panics (modelled `none`) when the file holds no
records at all; otherwise the header record is skipped and the first field
of every remaining record is collected. -/
def readTickersFromCSV (records : List (List String)) : Option (List String) :=
  match records with
  | [] => none
  | _ :: rest => firstFields rest

/-- A finished step-timing node (performance.go, type StepTiming):
name, duration (ns), finished substeps in order. -/
inductive StepTree where
  | node (name : String) (duration : ℕ) (subSteps : List StepTree)

/-- StepAggregate (performance.go:20-27). -/
structure StepAggregate where
  count : ℕ
  total : ℕ
  average : ℕ
  min : ℕ
  max : ℕ
  stepName : String
deriving DecidableEq, Repr

/-- Lookup in the aggregates map (`pt.aggregates[step.Name]`). -/
def lookupAgg (aggs : List (String × StepAggregate)) (name : String) : Option StepAggregate :=
  (aggs.find? (fun p => p.1 == name)).map Prod.snd

/-- Store a binding in the aggregates map. -/
def insertAgg (name : String) (a : StepAggregate) :
    List (String × StepAggregate) → List (String × StepAggregate)
  | [] => [(name, a)]
  | (k, v) :: rest => if k == name then (k, a) :: rest else (k, v) :: insertAgg name a rest

/-- The non-recursive body of updateAggregates (performance.go:124-143) for
one node: create the bucket on first sight with Min = Max = duration, then
Count++, Total += duration, Average = Total / Count (integer division of
time.Duration), and the min/max updates. -/
def foldStepAgg (aggs : List (String × StepAggregate)) (name : String) (duration : ℕ) :
    List (String × StepAggregate) :=
  let agg := (lookupAgg aggs name).getD
    { count := 0, total := 0, average := 0, min := duration, max := duration, stepName := name }
  let count := agg.count + 1
  let total := agg.total + duration
  insertAgg name
    { count := count
      total := total
      average := total / count
      min := if duration < agg.min then duration else agg.min
      max := if agg.max < duration then duration else agg.max
      stepName := name } aggs

mutual

/-- updateAggregates (performance.go:120-149), its locking stripped: fold
the node itself, then recursively every substep. -/
def updateAggregates (aggs : List (String × StepAggregate)) : StepTree → List (String × StepAggregate)
  | .node name duration subSteps => updateAggregatesList (foldStepAgg aggs name duration) subSteps

/-- The `for _, subStep := range step.SubSteps` recursion of
updateAggregates. -/
def updateAggregatesList (aggs : List (String × StepAggregate)) :
    List StepTree → List (String × StepAggregate)
  | [] => aggs
  | t :: ts => updateAggregatesList (updateAggregates aggs t) ts

end

/-- A still-open step: its name and the finished children collected so
far.  The stack of open frames (innermost first) is the explicit-stack
equivalent of the `currentStep` cursor plus the find-parent-by-walking
search of performance.go:71-96; for balanced Start/End sequences both
yield the same trees and the same currentStep. -/
structure OpenFrame where
  name : String
  children : List StepTree

/-- The tracker state: finished root trees (pt.steps), the open-step stack
(pt.currentStep and its ancestors), and the aggregates map. -/
structure TrackerState where
  steps : List StepTree
  openStack : List OpenFrame
  aggregates : List (String × StepAggregate)

/-- One tracker call.  A StartStep carries the step name; an EndStep
carries the duration that `time.Since(StartTime)` fixes at that moment. -/
inductive PerfEvent where
  | startStep (name : String)
  | endStep (duration : ℕ)

/-- StartStep (performance.go:45-60) and EndStep (performance.go:63-82)
with the (self-deadlocking, see the lock model below) mutex stripped:
StartStep opens a child of the open step (or a new root); EndStep closes
the open step, folds the finished node into the aggregates via
updateAggregates, and moves the cursor back to the parent.  EndStep with
no open step does nothing. -/
def applyEvent (st : TrackerState) : PerfEvent → TrackerState
  | .startStep name => { st with openStack := { name := name, children := [] } :: st.openStack }
  | .endStep duration =>
    match st.openStack with
    | [] => st
    | frame :: rest =>
      let finished := StepTree.node frame.name duration frame.children
      let aggs := updateAggregates st.aggregates finished
      match rest with
      | [] => { steps := st.steps ++ [finished], openStack := [], aggregates := aggs }
      | parent :: rest' =>
        { steps := st.steps
          openStack := { parent with children := parent.children ++ [finished] } :: rest'
          aggregates := aggs }

/-- Run a sequence of tracker calls from the fresh tracker
(NewPerformanceTracker). -/
def runTracker (events : List PerfEvent) : TrackerState :=
  events.foldl applyEvent { steps := [], openStack := [], aggregates := [] }

/-- One operation on the tracker's sync.Mutex. -/
inductive LockOp where
  | acquire
  | release

mutual

/-- The mutex operations performed by a call to updateAggregates
(performance.go:120-149) on a finished node: `pt.mu.Lock()` on entry, the
recursive calls for the substeps, and the deferred `pt.mu.Unlock()` on
return. -/
def lockOpsOfUpdateAggregates : StepTree → List LockOp
  | .node _ _ subSteps => LockOp.acquire :: lockOpsOfUpdateAggregatesList subSteps ++ [LockOp.release]

/-- Mutex operations of the substep recursion of updateAggregates. -/
def lockOpsOfUpdateAggregatesList : List StepTree → List LockOp
  | [] => []
  | t :: ts => lockOpsOfUpdateAggregates t ++ lockOpsOfUpdateAggregatesList ts

end

/-- The mutex operations performed by one call to EndStep
(performance.go:63-82): `pt.mu.Lock()`, then — when a step is open — the
operations of the updateAggregates call on it, then the deferred
`pt.mu.Unlock()`. -/
def lockOpsOfEndStep (openStep : Option StepTree) : List LockOp :=
  match openStep with
  | none => [LockOp.acquire, LockOp.release]
  | some t => LockOp.acquire :: (lockOpsOfUpdateAggregates t ++ [LockOp.release])

/-- Execute a lock-operation trace of a single goroutine against a
non-reentrant mutex (Go sync.Mutex).  `some h` is normal completion with
final held-state `h`; `none` means the goroutine tried to acquire the
mutex while already holding it — with no other goroutine left to release
it, the call blocks forever. -/
def runLockOps : Bool → List LockOp → Option Bool
  | held, [] => some held
  | held, LockOp.acquire :: rest => if held then none else runLockOps true rest
  | _, LockOp.release :: rest => runLockOps false rest

/-! ### Concrete fixtures used by witnesses and counterexamples -/

/-- A record with only its date field populated. -/
def mkRec (d : String) : StockData :=
  { date := d, openPrice := "", highPrice := "", lowPrice := "", closePrice := "",
    volume := "", totalShares := "", numTrades := "", change := 0, changePerc := 0 }

/-- A record with date and close price populated. -/
def mkRecC (d c : String) : StockData :=
  { date := d, openPrice := "", highPrice := "", lowPrice := "", closePrice := c,
    volume := "", totalShares := "", numTrades := "", change := 0, changePerc := 0 }

/-- A parser that rejects every close price. -/
def parseNone : String → Option ℚ := fun _ => none

/-- A session whose first page holds two full rows and whose later pages are
empty. -/
def pagesTwoRows : Nat → PageResult :=
  fun n => if n = 1 then .ok [mkRec "D2", mkRec "D1"] else .ok []

/-- A session on which every doAjax navigation to the next page fails. -/
def navAlwaysFail : Nat → Bool := fun _ => false

/-- A session on which the table extraction always fails. -/
def pagesAllFail : Nat → PageResult := fun _ => .failure

/-- A session that always delivers an empty table. -/
def pagesAllEmpty : Nat → PageResult := fun _ => .ok []

/-- A session that always delivers a single (short) row. -/
def pagesOneShort : Nat → PageResult := fun _ => .ok [mkRec "D1"]


/-! ### C10: the ticker-list reader -/

/-- C10: ReadTickersFromCSV returns the first field of every record after
the header row whenever the input holds at least one record (with the
encoding/csv guarantee that every delivered record has at least one
field), but on an input with zero records the slice `records[1:]` is out
of range and the call panics (modelled as `none`) instead of returning an
error or an empty list. -/
theorem readTickersFromCSV_spec :
    readTickersFromCSV [] = none ∧
    ∀ (hd : List String) (rest : List (List String)), (∀ r ∈ rest, r ≠ []) →
      readTickersFromCSV (hd :: rest) = some (rest.map (fun r => r.getD 0 "")) := by
  refine ⟨rfl, ?_⟩
  intro hd rest h
  show firstFields rest = some (rest.map (fun r => r.getD 0 ""))
  induction rest with
  | nil => rfl
  | cons r rs ih =>
    obtain ⟨a, as, rfl⟩ := List.exists_cons_of_ne_nil (h r (List.mem_cons_self r rs))
    have hrec := ih (fun x hx => h x (List.mem_cons_of_mem _ hx))
    simp [firstFields, hrec]

/-- Witness for C10 at a concrete three-record file. -/
theorem readTickersFromCSV_spec_witness :
    readTickersFromCSV [["h1", "h2"], ["AAPL", "x"], ["TASC"]] = some ["AAPL", "TASC"] :=
  readTickersFromCSV_spec.2 ["h1", "h2"] [["AAPL", "x"], ["TASC"]] (by decide)

/-! ### C9: the tracker's mutex discipline -/

/-- C9 is refuted by the code: EndStep takes the tracker mutex and then
calls updateAggregates, which takes the same non-reentrant mutex again, so
every EndStep invocation that closes an open step blocks forever; only the
degenerate EndStep with no open step completes. -/
theorem endStep_self_deadlock :
    (∀ t : StepTree, runLockOps false (lockOpsOfEndStep (some t)) = none) ∧
    runLockOps false (lockOpsOfEndStep none) = some false := by
  refine ⟨?_, rfl⟩
  intro t
  cases t with
  | node name duration subSteps =>
    simp [lockOpsOfEndStep, lockOpsOfUpdateAggregates, runLockOps]

/-! ### C1: aggregate counting -/

/-- The tracker calls of the C1 scenario: two sequential runs, each opening
step "fetch" with child step "decode" opened (and closed) twice, with
arbitrary concrete durations. -/
def c1Events : List PerfEvent :=
  [.startStep "fetch", .startStep "decode", .endStep 2, .startStep "decode", .endStep 4,
   .endStep 10,
   .startStep "fetch", .startStep "decode", .endStep 3, .startStep "decode", .endStep 5,
   .endStep 11]

/-- C1 is refuted by the code: in the two-run scenario the "decode" bucket
ends with count 8, not 4 — every node is folded once at its own EndStep and
once more for each ancestor whose EndStep recursively re-folds the whole
finished subtree ("fetch", having no ancestor, gets count 2 as the claim
says). -/
theorem updateAggregates_double_counts :
    lookupAgg (runTracker c1Events).aggregates "decode" =
      some { count := 8, total := 28, average := 3, min := 2, max := 5, stepName := "decode" } ∧
    lookupAgg (runTracker c1Events).aggregates "fetch" =
      some { count := 2, total := 21, average := 10, min := 10, max := 11, stepName := "fetch" } :=
  ⟨rfl, rfl⟩

/-! ### C2: overlap merge keeps exactly the rows before the matched head date -/

/-- If the head date first occurs at index i, the truncation loop cuts the
page exactly at i. -/
theorem truncateAtDate_eq_take (d : String) :
    ∀ (l : List StockData) (i : ℕ) (r : StockData),
      l.get? i = some r → r.date = d →
      (∀ j, j < i → (l.get? j).map (fun x => x.date) ≠ some d) →
      truncateAtDate d l = l.take i := by
  intro l
  induction l with
  | nil => intro i r h _ _; simp at h
  | cons a tl ih =>
    intro i r h hr hb
    cases i with
    | zero =>
      rw [List.get?_cons_zero, Option.some_inj] at h
      subst h
      simp [truncateAtDate, hr]
    | succ j =>
      have h0 : a.date ≠ d := by
        have := hb 0 (Nat.succ_pos j)
        simpa using this
      rw [List.get?_cons_succ] at h
      have htl := ih j r h hr (fun j' hj' => by
        have := hb (j' + 1) (Nat.succ_lt_succ hj')
        simpa using this)
      simp [truncateAtDate, h0, htl]

/-- C2: when the most recent date of the existing history first occurs at
index i of the freshly fetched rows, the merge keeps exactly
freshRows[0:i) as new rows and yields freshRows[0:i) ++ existingHistory,
with the existing history itself untouched. -/
theorem merge_truncates_at_head (existingData fresh : List StockData) (i : ℕ) (r : StockData)
    (hex : existingData ≠ [])
    (hir : fresh.get? i = some r)
    (hdate : r.date = headDate existingData)
    (hbefore : ∀ j, j < i → (fresh.get? j).map (fun x => x.date) ≠ some (headDate existingData)) :
    mergeFresh existingData fresh = fresh.take i ++ existingData := by
  obtain ⟨e, tl, rfl⟩ := List.exists_cons_of_ne_nil hex
  have hov : findOverlap (e :: tl) fresh = true := by
    apply List.any_eq_true.mpr
    exact ⟨r, List.get?_mem hir, by simpa [headDate] using hdate⟩
  have htr : truncateAtDate (headDate (e :: tl)) fresh = fresh.take i :=
    truncateAtDate_eq_take _ fresh i r hir hdate hbefore
  simp only [mergeFresh, hov, if_true, htr]

/-- Witness for C2: existing history [D5,D4,D3] merged with the fresh page
[D7,D6,D5,D4] keeps [D7,D6] and yields [D7,D6,D5,D4,D3]. -/
theorem merge_truncates_at_head_witness :
    mergeFresh [mkRec "D5", mkRec "D4", mkRec "D3"]
        [mkRec "D7", mkRec "D6", mkRec "D5", mkRec "D4"] =
      [mkRec "D7", mkRec "D6", mkRec "D5", mkRec "D4", mkRec "D3"] :=
  (merge_truncates_at_head [mkRec "D5", mkRec "D4", mkRec "D3"]
    [mkRec "D7", mkRec "D6", mkRec "D5", mkRec "D4"] 2 (mkRec "D5")
    (by decide) rfl rfl (by decide)).trans rfl

/-! ### C4: merge soundness needs the newest-first / contiguity assumption -/

/-- Counterexample to C4 as stated: with non-empty existing history
[D5,D4] and non-empty fresh rows [D4], the head date D5 does not occur in
the fresh rows, findOverlap reports no overlap, and the merge result
[D4,D5,D4] duplicates D4 — so the unconditional claim is false. -/
theorem merge_duplicate_dates_counterexample :
    ([mkRec "D5", mkRec "D4"] : List StockData) ≠ [] ∧
    ([mkRec "D4"] : List StockData) ≠ [] ∧
    ¬ ((mergeFresh [mkRec "D5", mkRec "D4"] [mkRec "D4"]).map (fun r => r.date)).Nodup :=
  ⟨by decide, by decide, by decide⟩

/-- Every row kept by the truncation loop is a row of the page. -/
theorem mem_of_mem_truncateAtDate (d : String) :
    ∀ (l : List StockData) (r : StockData), r ∈ truncateAtDate d l → r ∈ l := by
  intro l
  induction l with
  | nil => intro r h; simp [truncateAtDate] at h
  | cons a tl ih =>
    intro r h
    cases ha : a.date == d
    · rw [truncateAtDate, ha, if_neg (by simp)] at h
      rcases List.mem_cons.mp h with h1 | h2
      · exact h1 ▸ List.mem_cons_self a tl
      · exact List.mem_cons_of_mem _ (ih r h2)
    · rw [truncateAtDate, ha, if_pos rfl] at h
      simp at h

/-- The truncation loop returns a prefix of the page. -/
theorem truncateAtDate_eq_take_length (d : String) :
    ∀ l : List StockData, truncateAtDate d l = l.take (truncateAtDate d l).length := by
  intro l
  induction l with
  | nil => rfl
  | cons a tl ih =>
    cases ha : a.date == d
    · rw [truncateAtDate, ha, if_neg (by simp), List.length_cons, List.take_succ_cons, ← ih]
    · rw [truncateAtDate, ha, if_pos rfl]
      rfl

/-- In a page with strictly decreasing date keys that contains date d, every
row before the first occurrence of d has a strictly larger key. -/
theorem key_lt_of_mem_truncateAtDate (key : String → ℤ) (d : String) :
    ∀ l : List StockData,
      l.Pairwise (fun a b => key b.date < key a.date) →
      d ∈ l.map (fun r => r.date) →
      ∀ r ∈ truncateAtDate d l, key d < key r.date := by
  intro l
  induction l with
  | nil => intro _ h; simp at h
  | cons a tl ih =>
    intro hp hd r hr
    rcases List.pairwise_cons.mp hp with ⟨ha, hp'⟩
    cases hae : a.date == d
    · have hane : a.date ≠ d := beq_eq_false_iff_ne.mp hae
      have hd' : d ∈ tl.map (fun r => r.date) := by
        rcases List.mem_map.mp hd with ⟨b, hb, hbd⟩
        rcases List.mem_cons.mp hb with rfl | hbtl
        · exact absurd hbd hane
        · exact hbd ▸ List.mem_map_of_mem _ hbtl
      rw [truncateAtDate, hae, if_neg (by simp)] at hr
      rcases List.mem_cons.mp hr with rfl | hrtl
      · rcases List.mem_map.mp hd' with ⟨b, hb, hbd⟩
        exact hbd ▸ ha b hb
      · exact ih hp' hd' r hrtl
    · rw [truncateAtDate, hae, if_pos rfl] at hr
      simp at hr

/-- The truncation loop preserves the strictly-decreasing-key invariant. -/
theorem pairwise_truncateAtDate (key : String → ℤ) (d : String) :
    ∀ l : List StockData,
      l.Pairwise (fun a b => key b.date < key a.date) →
      (truncateAtDate d l).Pairwise (fun a b => key b.date < key a.date) := by
  intro l
  induction l with
  | nil => intro _; exact List.Pairwise.nil
  | cons a tl ih =>
    intro hp
    rcases List.pairwise_cons.mp hp with ⟨ha, hp'⟩
    cases hae : a.date == d
    · rw [truncateAtDate, hae, if_neg (by simp)]
      exact List.pairwise_cons.mpr
        ⟨fun b hb => ha b (mem_of_mem_truncateAtDate d tl b hb), ih hp'⟩
    · rw [truncateAtDate, hae, if_pos rfl]
      exact List.Pairwise.nil

/-- Strictly decreasing date keys make the dates of a list pairwise
distinct. -/
theorem datesNodup_of_pairwise (key : String → ℤ) (l : List StockData)
    (hp : l.Pairwise (fun a b => key b.date < key a.date)) :
    (l.map (fun r => r.date)).Nodup := by
  have : List.Pairwise (fun a b : String => a ≠ b) (l.map fun r => r.date) :=
    List.pairwise_map.mpr (hp.imp (fun h heq => by rw [heq] at h; exact absurd h (lt_irrefl _)))
  exact this

/-- Under the strictly-decreasing-key invariant, the head's key bounds
every key of the history. -/
theorem key_le_headDate (key : String → ℤ) (e : StockData) (tl : List StockData)
    (hp : (e :: tl).Pairwise (fun a b => key b.date < key a.date)) :
    ∀ r ∈ e :: tl, key r.date ≤ key (headDate (e :: tl)) := by
  intro r hr
  rcases List.mem_cons.mp hr with rfl | h
  · exact le_refl _
  · exact le_of_lt ((List.pairwise_cons.mp hp).1 r h)

/-- C4 amended: for non-empty fresh rows and existing histories that obey
the newest-first data-model invariant (dates strictly decreasing under a
key) and the append-only contiguity assumption of §4.2/§9 (the fresh rows
either contain the existing head's date, or share no date at all with the
existing history), the merged result is a fresh-rows prefix followed by
the untouched existing history — so the relative order of both inputs is
preserved — it contains no duplicate dates, and the kept new rows never
include a date already present in the existing history. -/
theorem merge_wellformed_sound (key : String → ℤ) (existingData fresh : List StockData)
    (hex : existingData ≠ []) (hfr : fresh ≠ [])
    (hde : existingData.Pairwise (fun a b => key b.date < key a.date))
    (hdf : fresh.Pairwise (fun a b => key b.date < key a.date))
    (hcase : headDate existingData ∈ fresh.map (fun r => r.date) ∨
        ∀ d ∈ fresh.map (fun r => r.date), d ∉ existingData.map (fun r => r.date)) :
    ∃ k, mergeFresh existingData fresh = fresh.take k ++ existingData ∧
      ((mergeFresh existingData fresh).map (fun r => r.date)).Nodup ∧
      ∀ r ∈ fresh.take k, r.date ∉ existingData.map (fun x => x.date) := by
  obtain ⟨e, etl, rfl⟩ := List.exists_cons_of_ne_nil hex
  rcases hcase with hmem | hdisj
  · have hov : findOverlap (e :: etl) fresh = true := by
      apply List.any_eq_true.mpr
      rcases List.mem_map.mp hmem with ⟨b, hb, hbd⟩
      exact ⟨b, hb, beq_iff_eq.mpr hbd⟩
    have hkeep : ∀ r ∈ truncateAtDate (headDate (e :: etl)) fresh,
        key (headDate (e :: etl)) < key r.date :=
      key_lt_of_mem_truncateAtDate key _ fresh hdf hmem
    have hnotin : ∀ r ∈ truncateAtDate (headDate (e :: etl)) fresh,
        r.date ∉ (e :: etl).map (fun x => x.date) := by
      intro r hr hmem2
      rcases List.mem_map.mp hmem2 with ⟨s, hs, hsd⟩
      have h2 := key_le_headDate key e etl hde s hs
      rw [hsd] at h2
      exact absurd (hkeep r hr) (not_lt.mpr h2)
    refine ⟨(truncateAtDate (headDate (e :: etl)) fresh).length, ?_, ?_, ?_⟩
    · simp only [mergeFresh, hov, if_true]
      rw [← truncateAtDate_eq_take_length]
    · simp only [mergeFresh, hov, if_true, List.map_append]
      refine List.Nodup.append ?_ ?_ ?_
      · exact datesNodup_of_pairwise key _ (pairwise_truncateAtDate key _ fresh hdf)
      · exact datesNodup_of_pairwise key _ hde
      · intro x hx1 hx2
        rcases List.mem_map.mp hx1 with ⟨r, hr, rfl⟩
        exact hnotin r hr hx2
    · intro r hr
      rw [← truncateAtDate_eq_take_length] at hr
      exact hnotin r hr
  · have hnov : findOverlap (e :: etl) fresh = false := by
      show fresh.any (fun r => r.date == e.date) = false
      apply List.any_eq_false.mpr
      intro b hb hbd
      have hbe : b.date = e.date := beq_iff_eq.mp hbd
      have := hdisj b.date (List.mem_map_of_mem _ hb)
      apply this
      rw [hbe]
      exact List.mem_map_of_mem _ (List.mem_cons_self e etl)
    have hdisj' : ∀ r ∈ fresh, r.date ∉ (e :: etl).map (fun x => x.date) :=
      fun r hr => hdisj r.date (List.mem_map_of_mem _ hr)
    refine ⟨fresh.length, ?_, ?_, ?_⟩
    · simp [mergeFresh, hnov, List.take_length]
    · simp only [mergeFresh, hnov, Bool.false_eq_true, if_false, List.map_append]
      refine List.Nodup.append ?_ ?_ ?_
      · exact datesNodup_of_pairwise key _ hdf
      · exact datesNodup_of_pairwise key _ hde
      · intro x hx1 hx2
        rcases List.mem_map.mp hx1 with ⟨r, hr, rfl⟩
        exact hdisj' r hr hx2
    · intro r hr
      rw [List.take_length] at hr
      exact hdisj' r hr

/-- Concrete date keys of the C4 witness. -/
def c4Key : String → ℤ := fun s =>
  if s = "D7" then 7 else if s = "D6" then 6 else if s = "D5" then 5
  else if s = "D4" then 4 else if s = "D3" then 3 else 0

/-- Witness for the amended C4 at the spec's own merge example. -/
theorem merge_wellformed_sound_witness :
    ∃ k, mergeFresh [mkRec "D5", mkRec "D4", mkRec "D3"]
          [mkRec "D7", mkRec "D6", mkRec "D5", mkRec "D4"] =
        [mkRec "D7", mkRec "D6", mkRec "D5", mkRec "D4"].take k ++
          [mkRec "D5", mkRec "D4", mkRec "D3"] ∧
      ((mergeFresh [mkRec "D5", mkRec "D4", mkRec "D3"]
          [mkRec "D7", mkRec "D6", mkRec "D5", mkRec "D4"]).map (fun r => r.date)).Nodup ∧
      ∀ r ∈ [mkRec "D7", mkRec "D6", mkRec "D5", mkRec "D4"].take k,
        r.date ∉ [mkRec "D5", mkRec "D4", mkRec "D3"].map (fun x => x.date) :=
  merge_wellformed_sound c4Key [mkRec "D5", mkRec "D4", mkRec "D3"]
    [mkRec "D7", mkRec "D6", mkRec "D5", mkRec "D4"]
    (by decide) (by decide) (by decide) (by decide) (Or.inl (by decide))

/-! ### C5: page-capability failures in the fetch loop -/

/-- Counterexample to C5 as stated: on a session whose doAjax navigation to
page 2 fails after a full first page, GetStockData does not abort with an
error — the loop breaks and the partially accumulated rows are returned as
a successful result. -/
theorem nav_failure_partial_success_counterexample :
    navAlwaysFail 1 = false ∧
    GetStockData parseNone pagesTwoRows navAlwaysFail [] 3 2 =
      .ok [mkRec "D2", mkRec "D1"] :=
  ⟨rfl, rfl⟩

/-- C5 amended: a failure of page-data extraction aborts the fetch with a
propagated error (not retried in-loop), and a fetch that ends in an error
leaves the entity's persisted file untouched (its new pages are
discarded); a failure of the navigation to the next page, however, stops
the pagination and the rows accumulated so far are returned as a
successful result. -/
theorem page_failure_policy :
    (∀ pages nav existingData maxPages pageSize fuel currentPage acc,
        pages currentPage = PageResult.failure →
        getLoop pages nav existingData maxPages pageSize (fuel + 1) currentPage acc =
          .error ("failed to extract data from page " ++ toString currentPage)) ∧
    (∀ parse fmt3 fmt2 pages nav maxPages pageSize file e,
        GetStockData parse pages nav (loadExistingData file) maxPages pageSize = .error e →
        processSingleTicker parse fmt3 fmt2 pages nav maxPages pageSize file = (file, false)) ∧
    (∀ pages nav existingData maxPages pageSize fuel currentPage acc pd,
        pages currentPage = PageResult.ok pd → pd ≠ [] →
        findOverlap existingData pd = false → ¬ pd.length < pageSize →
        currentPage < maxPages → nav currentPage = false →
        getLoop pages nav existingData maxPages pageSize (fuel + 1) currentPage acc =
          .ok (acc ++ pd, 1)) := by
  refine ⟨?_, ?_, ?_⟩
  · intro pages nav ex mp ps fuel cp acc h
    simp [getLoop, h]
  · intro parse f3 f2 pages nav mp ps file e h
    simp [processSingleTicker, h]
  · intro pages nav ex mp ps fuel cp acc pd h1 h2 h3 h4 h5 h6
    simp [getLoop, h1, h2, h3, h4, h6, not_le.mpr h5]

/-- Witness for the amended C5: concrete runs of all three branches. -/
theorem page_failure_policy_witness :
    getLoop pagesAllFail navAlwaysFail [] 3 2 1 1 [] =
      .error ("failed to extract data from page " ++ toString 1) ∧
    processSingleTicker parseNone (fun _ => "") (fun _ => "") pagesAllFail navAlwaysFail 3 2 none =
      (none, false) ∧
    getLoop pagesTwoRows navAlwaysFail [] 3 2 3 1 [] = .ok ([] ++ [mkRec "D2", mkRec "D1"], 1) :=
  ⟨page_failure_policy.1 pagesAllFail navAlwaysFail [] 3 2 0 1 [] rfl,
   page_failure_policy.2.1 parseNone (fun _ => "") (fun _ => "") pagesAllFail navAlwaysFail 3 2 none
     ("failed to extract data from page " ++ toString 1) rfl,
   page_failure_policy.2.2 pagesTwoRows navAlwaysFail [] 3 2 2 1 [] [mkRec "D2", mkRec "D1"]
     rfl (by decide) rfl (by decide) (by decide) rfl⟩

/-! ### C3: when the persisted file is overwritten -/

/-- A constant formatter for the C3 counterexample. -/
def fmtC3 : ℚ → String := fun _ => "z"

/-- A persisted data row with head date D1, as SaveToCSV would have
written it (the constant formatter puts "z" in the Change columns). -/
def rowC3 : List String := ["D1", "o", "h", "l", "c", "z", "z", "v", "t", "n"]

/-- The previously persisted file of the C3 counterexample. -/
def fileC3 : Option (List (List String)) := some (csvHeader :: [rowC3])

/-- A session whose first page holds two full rows, none overlapping the
persisted head date D1. -/
def pagesC3 : Nat → PageResult :=
  fun n => if n = 1 then .ok [mkRec "D3", mkRec "D2"] else .ok []

/-- Counterexample to C3 as stated: with a persisted file present, a full
first page and a failed navigation to page 2 (a navigation-stage failure),
the run still ends successfully and the persisted file is overwritten with
the partially fetched rows prepended to the old history — it is not left
byte-for-byte untouched. -/
theorem nav_failure_overwrites_file_counterexample :
    navAlwaysFail 1 = false ∧
    processSingleTicker parseNone fmtC3 fmtC3 pagesC3 navAlwaysFail 3 2 fileC3 =
      (some (csvHeader ::
        [mkRec "D3", mkRec "D2", loadRow rowC3].map (serializeRow fmtC3 fmtC3)), true) ∧
    some (csvHeader ::
        [mkRec "D3", mkRec "D2", loadRow rowC3].map (serializeRow fmtC3 fmtC3)) ≠ fileC3 :=
  ⟨rfl, rfl, by decide⟩

/-- C3 amended: the persisted file is overwritten only with the complete
merged-and-annotated result of a fetch that returned success with a
non-empty row set — a fetch that propagates an error (extraction failure,
or navigation failure on the initial page load) or produces an empty
result leaves the previously persisted file byte-for-byte untouched, and
a written file always holds the full serialised result, header plus one
row per record, never a fragment of it.  A failed navigation to the next
page, however, is returned as success (see C5), so the partially fetched
pages are saved and do overwrite the file. -/
theorem file_overwrite_policy (parse : String → Option ℚ) (fmt3 fmt2 : ℚ → String)
    (pages : Nat → PageResult) (nav : Nat → Bool) (maxPages pageSize : Nat)
    (file : Option (List (List String))) :
    (∀ e, GetStockData parse pages nav (loadExistingData file) maxPages pageSize = .error e →
        processSingleTicker parse fmt3 fmt2 pages nav maxPages pageSize file = (file, false)) ∧
    (GetStockData parse pages nav (loadExistingData file) maxPages pageSize = .ok [] →
        processSingleTicker parse fmt3 fmt2 pages nav maxPages pageSize file = (file, false)) ∧
    (∀ rows, GetStockData parse pages nav (loadExistingData file) maxPages pageSize = .ok rows →
        rows ≠ [] →
        processSingleTicker parse fmt3 fmt2 pages nav maxPages pageSize file =
          (some (csvHeader :: rows.map (serializeRow fmt3 fmt2)), true)) := by
  refine ⟨?_, ?_, ?_⟩
  · intro e h
    simp [processSingleTicker, h]
  · intro h
    simp [processSingleTicker, h, SaveToCSV]
  · intro rows h hr
    simp [processSingleTicker, h, SaveToCSV, hr]

/-- Witness for the amended C3: an extraction failure and an empty result
both leave a concrete file untouched, and a successful two-row fetch
overwrites it with exactly the serialised result. -/
theorem file_overwrite_policy_witness :
    processSingleTicker parseNone (fun _ => "") (fun _ => "") pagesAllFail navAlwaysFail 3 2
        (some [["x"]]) = (some [["x"]], false) ∧
    processSingleTicker parseNone (fun _ => "") (fun _ => "") pagesAllEmpty navAlwaysFail 3 2
        none = (none, false) ∧
    processSingleTicker parseNone (fun _ => "") (fun _ => "") pagesTwoRows navAlwaysFail 3 2
        none =
      (some (csvHeader ::
        [mkRec "D2", mkRec "D1"].map (serializeRow (fun _ => "") (fun _ => ""))), true) :=
  ⟨(file_overwrite_policy parseNone (fun _ => "") (fun _ => "") pagesAllFail navAlwaysFail 3 2
      (some [["x"]])).1 ("failed to extract data from page " ++ toString 1) rfl,
   (file_overwrite_policy parseNone (fun _ => "") (fun _ => "") pagesAllEmpty navAlwaysFail 3 2
      none).2.1 rfl,
   (file_overwrite_policy parseNone (fun _ => "") (fun _ => "") pagesTwoRows navAlwaysFail 3 2
      none).2.2 [mkRec "D2", mkRec "D1"] rfl (by decide)⟩

/-! ### C7: pagination start, bound, and stopping conditions -/

/-- The loop consumes at most `fuel` pages. -/
theorem getLoop_count_le (pages : Nat → PageResult) (nav : Nat → Bool)
    (existingData : List StockData) (maxPages pageSize : Nat) :
    ∀ (fuel currentPage : Nat) (acc rows : List StockData) (n : Nat),
      getLoop pages nav existingData maxPages pageSize fuel currentPage acc = .ok (rows, n) →
      n ≤ fuel := by
  intro fuel
  induction fuel with
  | zero =>
    intro cp acc rows n h
    rw [getLoop] at h
    injection h with h'
    injection h' with _ hn
    omega
  | succ f ih =>
    intro cp acc rows n h
    rw [getLoop] at h
    split at h
    · simp at h
    · split_ifs at h with h1 h2 h3 h4 h5
      · injection h with h'
        injection h' with _ hn
        omega
      · injection h with h'
        injection h' with _ hn
        omega
      · injection h with h'
        injection h' with _ hn
        omega
      · injection h with h'
        injection h' with _ hn
        omega
      · split at h
        · simp at h
        · next res m heq =>
          injection h with h'
          injection h' with _ hn
          have := ih _ _ res m heq
          omega
      · injection h with h'
        injection h' with _ hn
        omega

/-- C7: the pagination loop runs from page 1 with fuel maxPages so it
fetches at most maxPages pages; an empty page stops it at once, keeping
the rows fetched so far; and a page shorter than the fixed page size (with
no overlap found on it) stops it at once after keeping that page, for
every currentPage — in particular also when currentPage has not yet
reached maxPages. -/
theorem pagination_policy :
    (∀ pages nav existingData maxPages pageSize rows n,
        GetStockDataRows pages nav existingData maxPages pageSize = .ok (rows, n) →
        n ≤ maxPages) ∧
    (∀ pages nav existingData maxPages pageSize fuel currentPage acc,
        pages currentPage = PageResult.ok [] →
        getLoop pages nav existingData maxPages pageSize (fuel + 1) currentPage acc =
          .ok (acc, 1)) ∧
    (∀ pages nav existingData maxPages pageSize fuel currentPage acc pd,
        pages currentPage = PageResult.ok pd → pd ≠ [] →
        findOverlap existingData pd = false → pd.length < pageSize →
        getLoop pages nav existingData maxPages pageSize (fuel + 1) currentPage acc =
          .ok (acc ++ pd, 1)) := by
  refine ⟨?_, ?_, ?_⟩
  · intro pages nav ex mp ps rows n h
    exact getLoop_count_le pages nav ex mp ps mp 1 [] rows n h
  · intro pages nav ex mp ps fuel cp acc h
    simp [getLoop, h]
  · intro pages nav ex mp ps fuel cp acc pd h1 h2 h3 h4
    simp [getLoop, h1, h2, h3, h4]

/-- Witness for C7: the bound on a concrete one-page run, a stop on an
empty page, and a stop on a short page with maxPages not yet reached. -/
theorem pagination_policy_witness :
    (1 : ℕ) ≤ 3 ∧
    getLoop pagesAllEmpty navAlwaysFail [] 3 2 1 1 [] = .ok ([], 1) ∧
    getLoop pagesOneShort navAlwaysFail [] 3 2 1 1 [] = .ok ([] ++ [mkRec "D1"], 1) :=
  ⟨pagination_policy.1 pagesTwoRows navAlwaysFail [] 3 2 [mkRec "D2", mkRec "D1"] 1 rfl,
   pagination_policy.2.1 pagesAllEmpty navAlwaysFail [] 3 2 0 1 [] rfl,
   pagination_policy.2.2 pagesOneShort navAlwaysFail [] 3 2 0 1 [] [mkRec "D1"]
     rfl (by decide) rfl (by decide)⟩

/-! ### C6: the derived-field annotation -/

/-- The length-2 early return of calculatePriceChanges coincides with the
index loop, which is the identity on shorter inputs anyway. -/
theorem calculatePriceChanges_eq_calcAux (parse : String → Option ℚ) :
    ∀ data : List StockData, calculatePriceChanges parse data = calcAux parse data := by
  intro data
  match data with
  | [] => rfl
  | [r] => rfl
  | a :: b :: rest =>
    have hlen : ¬ (a :: b :: rest).length < 2 := by
      simp only [List.length_cons]
      omega
    rw [calculatePriceChanges, if_neg hlen]

/-- The annotation pass keeps the number of rows. -/
theorem calcAux_length (parse : String → Option ℚ) :
    ∀ data : List StockData, (calcAux parse data).length = data.length := by
  intro data
  induction data with
  | nil => rfl
  | cons a tl ih =>
    cases tl with
    | nil => rfl
    | cons b rest =>
      show (calcChange parse a b :: calcAux parse (b :: rest)).length = _
      simp only [List.length_cons, ih]

/-- Index-wise description of the annotation pass: row i is rewritten from
rows i and i+1, the last row is left unchanged. -/
theorem calcAux_get? (parse : String → Option ℚ) :
    ∀ (l : List StockData) (i : ℕ),
      (calcAux parse l).get? i =
        match l.get? i, l.get? (i + 1) with
        | some cur, some next => some (calcChange parse cur next)
        | some cur, none => some cur
        | none, _ => none := by
  intro l
  induction l with
  | nil => intro i; simp [calcAux]
  | cons a tl ih =>
    cases tl with
    | nil =>
      intro i
      cases i with
      | zero => rfl
      | succ j => rfl
    | cons b rest =>
      intro i
      cases i with
      | zero => rfl
      | succ j => exact ih j

/-- calcChange when both closes parse. -/
theorem calcChange_parse_ok (parse : String → Option ℚ) (cur next : StockData) (c p : ℚ)
    (hc : parse cur.closePrice = some c) (hp : parse next.closePrice = some p) :
    calcChange parse cur next =
      { cur with change := c - p
                 changePerc := if p ≠ 0 then (c - p) / p * 100 else cur.changePerc } := by
  simp only [calcChange, hc, hp]

/-- calcChange when either close fails to parse. -/
theorem calcChange_parse_fail (parse : String → Option ℚ) (cur next : StockData)
    (h : parse cur.closePrice = none ∨ parse next.closePrice = none) :
    calcChange parse cur next = cur := by
  rcases h with h | h
  · simp only [calcChange, h]
  · cases hc : parse cur.closePrice with
    | none => simp only [calcChange, hc]
    | some c => simp only [calcChange, hc, h]

/-- C6: on a merged newest-first series whose rows carry the zero-valued
derived defaults, annotation sets change[i] = close[i] - close[i+1] for
every index except the last, changePercent[i] = change[i] / close[i+1] *
100 when close[i+1] is nonzero and 0 otherwise; the last (oldest) row
keeps zero-valued derived fields; and a close value that fails to parse
only causes that index to be skipped with its defaults kept, never
aborting the pass. -/
theorem calculatePriceChanges_spec (parse : String → Option ℚ) (data : List StockData)
    (hz : ∀ r ∈ data, r.change = 0 ∧ r.changePerc = 0) :
    (calculatePriceChanges parse data).length = data.length ∧
    (∀ i cur next c p, data.get? i = some cur → data.get? (i + 1) = some next →
        parse cur.closePrice = some c → parse next.closePrice = some p →
        ∃ r, (calculatePriceChanges parse data).get? i = some r ∧
          r.change = c - p ∧
          r.changePerc = (if p ≠ 0 then (c - p) / p * 100 else 0) ∧
          r.date = cur.date ∧ r.closePrice = cur.closePrice) ∧
    (∀ i cur, data.get? i = some cur →
        (parse cur.closePrice = none ∨
          ∃ next, data.get? (i + 1) = some next ∧ parse next.closePrice = none) →
        (calculatePriceChanges parse data).get? i = some cur) ∧
    (∀ cur, data.get? (data.length - 1) = some cur →
        (calculatePriceChanges parse data).get? (data.length - 1) = some cur ∧
        cur.change = 0 ∧ cur.changePerc = 0) := by
  rw [calculatePriceChanges_eq_calcAux]
  refine ⟨calcAux_length parse data, ?_, ?_, ?_⟩
  · intro i cur next c p hcur hnext hc hp
    refine ⟨calcChange parse cur next, ?_, ?_, ?_, ?_, ?_⟩
    · rw [calcAux_get? parse data i, hcur, hnext]
    · rw [calcChange_parse_ok parse cur next c p hc hp]
    · rw [calcChange_parse_ok parse cur next c p hc hp]
      show (if p ≠ 0 then (c - p) / p * 100 else cur.changePerc) =
        if p ≠ 0 then (c - p) / p * 100 else 0
      split_ifs with h0
      · rfl
      · exact (hz cur (List.get?_mem hcur)).2
    · rw [calcChange_parse_ok parse cur next c p hc hp]
    · rw [calcChange_parse_ok parse cur next c p hc hp]
  · intro i cur hcur hfail
    rw [calcAux_get? parse data i, hcur]
    cases hnext : data.get? (i + 1) with
    | none => rfl
    | some next =>
      have heq : calcChange parse cur next = cur := by
        rcases hfail with h | ⟨next', hn', hp'⟩
        · exact calcChange_parse_fail parse cur next (Or.inl h)
        · rw [hnext] at hn'
          injection hn' with hn''
          subst hn''
          exact calcChange_parse_fail parse cur next (Or.inr hp')
      show some (calcChange parse cur next) = some cur
      rw [heq]
  · intro cur hcur
    have hlast : data.get? (data.length - 1 + 1) = none := by
      rw [List.get?_eq_none]
      omega
    refine ⟨?_, (hz cur (List.get?_mem hcur)).1, (hz cur (List.get?_mem hcur)).2⟩
    rw [calcAux_get? parse data (data.length - 1), hcur, hlast]

/-- Concrete parser of the C6 witness. -/
def parseC6 : String → Option ℚ := fun s =>
  if s = "110" then some 110 else if s = "100" then some 100
  else if s = "90" then some 90 else none

/-- Concrete newest-first series of the C6 witness, closes [110,100,90]. -/
def dataC6 : List StockData := [mkRecC "D3" "110", mkRecC "D2" "100", mkRecC "D1" "90"]

/-- Witness for C6 at closes [110,100,90]: change[0]=10 with percent 10,
change[1]=10 with percent 100/9, and the last row keeps zero derived
fields. -/
theorem calculatePriceChanges_spec_witness :
    (∃ r, (calculatePriceChanges parseC6 dataC6).get? 0 = some r ∧
      r.change = 10 ∧ r.changePerc = 10) ∧
    (∃ r, (calculatePriceChanges parseC6 dataC6).get? 1 = some r ∧
      r.change = 10 ∧ r.changePerc = 100 / 9) ∧
    ((calculatePriceChanges parseC6 dataC6).get? 2 = some (mkRecC "D1" "90") ∧
      (mkRecC "D1" "90").change = 0 ∧ (mkRecC "D1" "90").changePerc = 0) := by
  have h := calculatePriceChanges_spec parseC6 dataC6 (by decide)
  refine ⟨?_, ?_, ?_⟩
  · obtain ⟨r, h1, h2, h3, -, -⟩ :=
      h.2.1 0 (mkRecC "D3" "110") (mkRecC "D2" "100") 110 100 rfl rfl rfl rfl
    exact ⟨r, h1, by rw [h2]; norm_num, by rw [h3]; norm_num⟩
  · obtain ⟨r, h1, h2, h3, -, -⟩ :=
      h.2.1 1 (mkRecC "D2" "100") (mkRecC "D1" "90") 100 90 rfl rfl rfl rfl
    exact ⟨r, h1, by rw [h2]; norm_num, by rw [h3]; norm_num⟩
  · exact h.2.2.2 (mkRecC "D1" "90") rfl

/-! ### C8: idempotence of the pipeline when nothing new is available -/

/-- Forget the derived fields of a record, as loading from CSV does. -/
def stripDerived (r : StockData) : StockData :=
  { r with change := 0, changePerc := 0 }

/-- A record with zero derived fields is unchanged by stripping. -/
theorem stripDerived_eq_self (r : StockData) (h1 : r.change = 0) (h2 : r.changePerc = 0) :
    stripDerived r = r := by
  cases r
  simp_all [stripDerived]

/-- The annotation body touches only the derived fields. -/
theorem stripDerived_calcChange (parse : String → Option ℚ) (cur next : StockData) :
    stripDerived (calcChange parse cur next) = stripDerived cur := by
  cases hc : parse cur.closePrice with
  | none => rw [calcChange_parse_fail parse cur next (Or.inl hc)]
  | some c =>
    cases hp : parse next.closePrice with
    | none => rw [calcChange_parse_fail parse cur next (Or.inr hp)]
    | some p =>
      rw [calcChange_parse_ok parse cur next c p hc hp]
      rfl

/-- The annotation pass touches only the derived fields. -/
theorem stripDerived_calcAux (parse : String → Option ℚ) :
    ∀ l : List StockData, (calcAux parse l).map stripDerived = l.map stripDerived := by
  intro l
  induction l with
  | nil => rfl
  | cons a tl ih =>
    cases tl with
    | nil => rfl
    | cons b rest =>
      show stripDerived (calcChange parse a b) :: (calcAux parse (b :: rest)).map stripDerived = _
      rw [stripDerived_calcChange, ih]
      rfl

/-- Loading back a row written by SaveToCSV recovers the record with its
derived fields zeroed (the Change and Change% columns are skipped by
loadExistingData). -/
theorem loadRow_serializeRow (fmt3 fmt2 : ℚ → String) (r : StockData) :
    loadRow (serializeRow fmt3 fmt2 r) = stripDerived r := rfl

/-- List version of the save/load round trip. -/
theorem map_loadRow_serializeRow (fmt3 fmt2 : ℚ → String) :
    ∀ l : List StockData, (l.map (serializeRow fmt3 fmt2)).map loadRow = l.map stripDerived := by
  intro l
  induction l with
  | nil => rfl
  | cons a tl ih => simp [loadRow_serializeRow, ih]

/-- Stripping is the identity on records whose derived fields are zero. -/
theorem map_stripDerived_id :
    ∀ l : List StockData, (∀ r ∈ l, r.change = 0 ∧ r.changePerc = 0) →
      l.map stripDerived = l := by
  intro l
  induction l with
  | nil => intro _; rfl
  | cons a tl ih =>
    intro h
    have ha := h a (List.mem_cons_self a tl)
    have htl := ih (fun r hr => h r (List.mem_cons_of_mem _ hr))
    show stripDerived a :: tl.map stripDerived = a :: tl
    rw [htl, stripDerived_eq_self a ha.1 ha.2]

/-- C8: when the persisted file is the output of a successful run on raw
records carrying zero derived defaults, and the remote source has nothing
newer — the first fetched page opens with the existing head's date — then
re-running load, fetch, merge, annotate and save succeeds and rewrites the
file with exactly the same cell table, i.e. byte-for-byte the same CSV. -/
theorem rerun_idempotent (parse : String → Option ℚ) (fmt3 fmt2 : ℚ → String)
    (pages : Nat → PageResult) (nav : Nat → Bool) (maxPages pageSize : Nat)
    (raw pd : List StockData)
    (hraw : raw ≠ [])
    (hz : ∀ r ∈ raw, r.change = 0 ∧ r.changePerc = 0)
    (hmp : 1 ≤ maxPages)
    (hp1 : pages 1 = PageResult.ok pd)
    (hpd : pd ≠ [])
    (hhd : headDate pd = headDate raw) :
    processSingleTicker parse fmt3 fmt2 pages nav maxPages pageSize
        (some (csvHeader :: (calculatePriceChanges parse raw).map (serializeRow fmt3 fmt2))) =
      (some (csvHeader :: (calculatePriceChanges parse raw).map (serializeRow fmt3 fmt2)), true) := by
  have hload : loadExistingData
      (some (csvHeader :: (calculatePriceChanges parse raw).map (serializeRow fmt3 fmt2))) = raw := by
    show ((calculatePriceChanges parse raw).map (serializeRow fmt3 fmt2)).map loadRow = raw
    rw [map_loadRow_serializeRow, calculatePriceChanges_eq_calcAux, stripDerived_calcAux]
    exact map_stripDerived_id raw hz
  obtain ⟨e, etl, hre⟩ := List.exists_cons_of_ne_nil hraw
  obtain ⟨p, pr, hpe⟩ := List.exists_cons_of_ne_nil hpd
  have hpd_date : p.date = e.date := by
    rw [hre, hpe] at hhd
    simpa [headDate] using hhd
  have hov : findOverlap raw pd = true := by
    rw [hre, hpe]
    show ((p :: pr).any fun r => r.date == e.date) = true
    simp [hpd_date]
  have htr : truncateAtDate (headDate raw) pd = [] := by
    rw [hre, hpe]
    show truncateAtDate e.date (p :: pr) = []
    rw [truncateAtDate, if_pos (beq_iff_eq.mpr hpd_date)]
  have hrows : GetStockDataRows pages nav raw maxPages pageSize = .ok ([], 1) := by
    obtain ⟨f, hf⟩ : ∃ f, maxPages = f + 1 := ⟨maxPages - 1, by omega⟩
    rw [hf]
    show getLoop pages nav raw (f + 1) pageSize (f + 1) 1 [] = .ok ([], 1)
    simp [getLoop, hp1, hpd, hov, htr]
  have hget : GetStockData parse pages nav raw maxPages pageSize =
      .ok (calculatePriceChanges parse raw) := by
    simp [GetStockData, hrows]
  have hne : calculatePriceChanges parse raw ≠ [] := by
    have hlen : (calculatePriceChanges parse raw).length = raw.length := by
      rw [calculatePriceChanges_eq_calcAux]
      exact calcAux_length parse raw
    intro hnil
    rw [hnil] at hlen
    exact hraw (List.eq_nil_of_length_eq_zero hlen.symm)
  simp only [processSingleTicker, hload, hget]
  simp [SaveToCSV, hne]

/-- Concrete parser of the C8 witness. -/
def parseC8 : String → Option ℚ := fun s =>
  if s = "2" then some 2 else if s = "1" then some 1 else none

/-- Concrete raw history of the C8 witness. -/
def rawC8 : List StockData := [mkRecC "D2" "2", mkRecC "D1" "1"]

/-- A session whose first page opens with the existing head's date. -/
def pagesC8 : Nat → PageResult := fun n => if n = 1 then .ok [mkRecC "D2" "9"] else .ok []

/-- A constant formatter for the C8 witness. -/
def fmtC8 : ℚ → String := fun _ => "n"

/-- Witness for C8 on a concrete two-row history. -/
theorem rerun_idempotent_witness :
    processSingleTicker parseC8 fmtC8 fmtC8 pagesC8 navAlwaysFail 3 25
        (some (csvHeader :: (calculatePriceChanges parseC8 rawC8).map (serializeRow fmtC8 fmtC8))) =
      (some (csvHeader :: (calculatePriceChanges parseC8 rawC8).map (serializeRow fmtC8 fmtC8)),
        true) :=
  rerun_idempotent parseC8 fmtC8 fmtC8 pagesC8 navAlwaysFail 3 25 rawC8 [mkRecC "D2" "9"]
    (by decide) (by decide) (by decide) rfl (by decide) rfl
